import Mathlib

/-!
Verification of the keyjack repository: a Winkey keyer protocol client
(src/winkey.rs) and a real-time sidetone synthesis engine
(src/jack_handlers/process.rs).

Modelling conventions:
* u8 / u32 / usize values are embedded as Nat; frame counters are Nat
  (the scenarios considered keep all u32 subtractions in range).
* f32 / f64 samples are embedded as rationals; the sine routine and the
  per-callback derived constant (2 * pi * sidetone_freq / sample_rate)
  are kept abstract as a function and a rational parameter, since the
  verified claims concern the argument fed to the sine routine and the
  envelope arithmetic, not the transcendental values themselves.
* Serial I/O is embedded as explicit event lists; the out-of-bounds
  access in Client::on_receive is modelled with Option.
-/

namespace Keyjack

/-! ## Winkey protocol client, embedded from src/winkey.rs -/

/-- MIN_SPEED (src/winkey.rs). -/
def MIN_SPEED : Nat := 13

/-- DEFAULT_SPEED (src/winkey.rs). -/
def DEFAULT_SPEED : Nat := 30

/-- MAX_SPEED (src/winkey.rs). -/
def MAX_SPEED : Nat := 45

/-- Command::ADMIN_HOST_OPEN byte sequence. -/
def ADMIN_HOST_OPEN : List Nat := [0, 2]

/-- Command::ADMIN_SET_WK2_MODE byte sequence. -/
def ADMIN_SET_WK2_MODE : List Nat := [0, 11]

/-- Command::ADMIN_SET_HIGH_BAUD byte sequence. -/
def ADMIN_SET_HIGH_BAUD : List Nat := [0, 17]

/-- Command::SET_WK2_MODE byte sequence. -/
def SET_WK2_MODE : List Nat := [0xe]

/-- Command::SET_WPM_SPEED byte sequence. -/
def SET_WPM_SPEED : List Nat := [0x2]

/-- Command::SETUP_SPEED_POT byte sequence. -/
def SETUP_SPEED_POT : List Nat := [5]

/-- Command::send concatenates the command header with the optional extra
parameter bytes before writing them to the serial link. -/
def commandSend (cmd : List Nat) (extra : Option (List Nat)) : List Nat :=
  cmd ++ extra.getD []

/-- WINKEY_23: the one supported firmware revision byte. -/
def WINKEY_23 : Nat := 23

/-- STATUS_BYTE = 0xc0. -/
def STATUS_BYTE : Nat := 0xc0

/-- STATUS_WK2_BYTE = 0xc8. -/
def STATUS_WK2_BYTE : Nat := 0xc8

/-- SPEED_POT_BYTE = 0x80. -/
def SPEED_POT_BYTE : Nat := 0x80

/-- SPEED_MASK = !(1 << 7) on u8, i.e. 0x7f. -/
def SPEED_MASK : Nat := 0x7f

/-- TX_KEY_MASK = 0x1. -/
def TX_KEY_MASK : Nat := 0x1

/-- Mode::PADDLE_ECHO_BACK flag. -/
def PADDLE_ECHO_BACK : Nat := 1 <<< 6

/-- Mode::KEY_MODE_IAMBIC_B flag. -/
def KEY_MODE_IAMBIC_B : Nat := 0

/-- Mode::SERIAL_ECHOBACK flag. -/
def SERIAL_ECHOBACK : Nat := 1 <<< 2

/-- The operating-mode byte assembled in Client::initialize by bitwise or
of the three Mode flags. -/
def modeByte : Nat := PADDLE_ECHO_BACK ||| KEY_MODE_IAMBIC_B ||| SERIAL_ECHOBACK

/-- The observable action Client::on_receive performs for one decoded byte:
store the real-time tx key line into the shared atomic, store the raw
status byte, print a speed-pot WPM report, or print one echoed character. -/
inductive Decoded where
  | statusKey (txKeyLine : Bool)
  | statusStore (b : Nat)
  | speedPot (wpm : Nat)
  | echo (ch : Nat)
deriving DecidableEq

/-- The decode of a single received byte, mirroring the match on
`data[0] & STATUS_BYTE` in Client::on_receive (src/winkey.rs). -/
def decodeByte (b : Nat) : Decoded :=
  if b &&& STATUS_BYTE = STATUS_BYTE then
    if b &&& STATUS_WK2_BYTE = STATUS_WK2_BYTE then
      Decoded.statusKey (decide (0 < b &&& TX_KEY_MASK))
    else
      Decoded.statusStore b
  else if b &&& STATUS_BYTE = SPEED_POT_BYTE then
    Decoded.speedPot ((b &&& SPEED_MASK) + MIN_SPEED)
  else
    Decoded.echo b

/-- Client::on_receive applied to the chunk `buf[..count]` returned by one
successful serial read: it indexes `data[0]` unconditionally (none models
the out-of-range access when the chunk is empty) and decodes only that
first byte. -/
def onReceive (chunk : List Nat) : Option Decoded :=
  match chunk with
  | [] => none
  | b :: _ => some (decodeByte b)

/-- Modelled from the spec (status byte decoding table, section 4.3):
every received byte of a chunk is decoded independently. This is the
spec-side reading of the drain loop, for comparison with onReceive. -/
def specChunkDecodes (chunk : List Nat) : List Decoded :=
  chunk.map decodeByte

/-- Classifier: did the decode take the device-status branch (either of
its two sub-branches)? -/
def isStatusBranch : Decoded → Bool
  | Decoded.statusKey _ => true
  | Decoded.statusStore _ => true
  | _ => false

/-- Classifier: did the decode take the speed-pot branch? -/
def isSpeedPotBranch : Decoded → Bool
  | Decoded.speedPot _ => true
  | _ => false

/-- Classifier: did the decode take the echoed-character branch? -/
def isEchoBranch : Decoded → Bool
  | Decoded.echo _ => true
  | _ => false

/-- One result of a non-blocking serial read inside Client::read:
a successful read returning a chunk of bytes, a would-block condition, or
any other read error (identified by an abstract code). -/
inductive ReadEvent where
  | ok (chunk : List Nat)
  | wouldBlock
  | err (e : Nat)

/-- The drain loop of Client::read over the sequence of serial read
results it consumes.  A successful read hands its chunk to on_receive and
continues; would-block breaks the loop returning Ok; any other error
returns Err carrying that error.  The outer Option models the
out-of-range access inside on_receive on an empty chunk; the inner
Option Nat is the returned error (none = Ok).  The decoded actions are
accumulated in order. -/
def clientReadT : List ReadEvent → Option (List Decoded × Option Nat)
  | [] => some ([], none)
  | ReadEvent.ok chunk :: evs =>
    match onReceive chunk with
    | none => none
    | some d => (clientReadT evs).map (fun p => (d :: p.1, p.2))
  | ReadEvent.wouldBlock :: _ => some ([], none)
  | ReadEvent.err e :: _ => some ([], some e)

/-- The chunks of the successful reads actually consumed by the drain
loop: everything before the first would-block or error. -/
def consumedOk : List ReadEvent → List (List Nat)
  | ReadEvent.ok c :: evs => c :: consumedOk evs
  | _ => []

/-- Setup errors of the client handshake. -/
inductive ClientError where
  | unsupportedDeviceVersion (v : Nat)
deriving DecidableEq

/-- Client::slow_init, as a function of the single version byte read from
the device: returns the low-speed command sequences sent, in order, and
the error, if any.  The set-protocol-mode and host-open commands are sent
before the version byte is read; the switch-to-high-baud command is sent
only when the version byte equals WINKEY_23. -/
def slow_init (version : Nat) : List (List Nat) × Option ClientError :=
  let sends := [commandSend ADMIN_SET_WK2_MODE none, commandSend ADMIN_HOST_OPEN none]
  if version ≠ WINKEY_23 then
    (sends, some (ClientError.unsupportedDeviceVersion version))
  else
    (sends ++ [commandSend ADMIN_SET_HIGH_BAUD none], none)

/-- The configuration command sequences sent at high speed by
Client::initialize, in order: operating-mode flags, default speed, and
speed-pot calibration bounds (min speed, span, reserved byte). -/
def configSends : List (List Nat) :=
  [commandSend SET_WK2_MODE (some [modeByte]),
   commandSend SET_WPM_SPEED (some [DEFAULT_SPEED]),
   commandSend SETUP_SPEED_POT (some [MIN_SPEED, MAX_SPEED - MIN_SPEED, 0])]

/-- Client::new as a function of the version byte: runs slow_init, and
only on success proceeds to the high-speed configuration commands.
Returns (low-speed sends, high-speed sends, error). -/
def clientNew (version : Nat) : List (List Nat) × List (List Nat) × Option ClientError :=
  match slow_init version with
  | (low, some e) => (low, [], some e)
  | (low, none) => (low, configSends, none)

/-! ## Real-time audio engine, embedded from src/jack_handlers/process.rs -/

/-- VOLUME_SCALE: the f32 literal 0.6, modelled as the rational 3/5. -/
def VOLUME_SCALE : ℚ := 3 / 5

/-- The per-callback constants of Handler::write_sine.
twoPiFreqPerRate models the f64 value (2 * pi * sidetone_freq) / sample_rate,
sinf models the f64 sine routine, and riseSamples models
(RISE_TIME / sample period).round(), the 5 ms rise and fall length in
frames.  They are kept abstract because the claims are about the
argument fed to sinf and the envelope arithmetic; the scenarios keep the
sample rate fixed, as the claims do. -/
structure SineParams where
  twoPiFreqPerRate : ℚ
  sinf : ℚ → ℚ
  riseSamples : Nat

/-- The mutable per-handler state of Handler that the process callback
reads and writes (src/jack_handlers/process.rs): last observed key line,
the frame time of the phase reference (start_frame_time) and of the
key-up edge (start_finishing_frame_time); both frame counters use 0 as
the inactive sentinel. -/
structure EngineState where
  lastTxKeyLine : Bool
  startFrameTime : Nat
  startFinishingFrameTime : Nat
deriving DecidableEq

/-- The sample loop of Handler::write_sine.  Arguments: remaining sample
count, current index n, the local finished flag, and the current value of
the start_finishing_frame_time field (mutated to 0 when the fall ramp
completes).  pos = last_frame_time - start_frame_time and
fpos = last_frame_time - start_finishing_frame_time are computed once
before the loop.  Returns the written samples and the final field
value. -/
def writeSineGo (P : SineParams) (pos fpos : Nat) :
    Nat → Nat → Bool → Nat → List ℚ × Nat
  | 0, _, _, field => ([], field)
  | r + 1, n, finished, field =>
    if finished then
      let rest := writeSineGo P pos fpos r (n + 1) true field
      ((0 : ℚ) :: rest.1, rest.2)
    else
      let v0 : ℚ := P.sinf (P.twoPiFreqPerRate * ((pos + n : Nat) : ℚ))
      let v1 : ℚ :=
        if pos + n ≤ P.riseSamples then
          v0 * (((pos + n : Nat) : ℚ) / (P.riseSamples : ℚ))
        else v0
      if 0 < field then
        if fpos + n ≤ P.riseSamples then
          let v2 : ℚ := v1 * (1 - ((fpos + n : Nat) : ℚ) / (P.riseSamples : ℚ))
          let rest := writeSineGo P pos fpos r (n + 1) false field
          (v2 * VOLUME_SCALE :: rest.1, rest.2)
        else
          let rest := writeSineGo P pos fpos r (n + 1) true 0
          ((0 : ℚ) :: rest.1, rest.2)
      else
        let rest := writeSineGo P pos fpos r (n + 1) false field
        (v1 * VOLUME_SCALE :: rest.1, rest.2)

/-- Handler::write_sine: computes pos and fpos from the block start frame
bt and the two recorded frame times, runs the sample loop over the N
frames of the block, and stores the possibly-cleared
start_finishing_frame_time back into the state. -/
def write_sine (P : SineParams) (s : EngineState) (bt N : Nat) : List ℚ × EngineState :=
  let pos := bt - s.startFrameTime
  let fpos := bt - s.startFinishingFrameTime
  let r := writeSineGo P pos fpos N 0 false s.startFinishingFrameTime
  (r.1, { s with startFinishingFrameTime := r.2 })

/-- Handler::process for one block: tx is the snapshot of the shared
tx_key_line atomic, bt the block start frame (process_scope.last_frame_time()),
N the block length.  Edge handling mirrors the source: on a key-down edge
an active fall-tail is cancelled, otherwise the phase reference is armed
only if it is at its 0 sentinel; on a key-up edge the fall start is
recorded as bt.  Then write_sine runs if the key is down or a fall-tail
is active, otherwise the buffer is cleared and the phase reference
reset. -/
def process (P : SineParams) (tx : Bool) (bt N : Nat) (s : EngineState) :
    List ℚ × EngineState :=
  let s1 :=
    if tx ≠ s.lastTxKeyLine then
      if tx then
        if 0 < s.startFinishingFrameTime then
          { s with startFinishingFrameTime := 0 }
        else if s.startFrameTime = 0 then
          { s with startFrameTime := bt }
        else s
      else
        { s with startFinishingFrameTime := bt }
    else s
  let s2 := { s1 with lastTxKeyLine := tx }
  if tx || 0 < s2.startFinishingFrameTime then
    write_sine P s2 bt N
  else
    (List.replicate N 0, { s2 with startFrameTime := 0 })

/-- The raw keyed sample at phase position k frames after the phase
reference: the sine value with the linear rise ramp applied while
k ≤ riseSamples. -/
def riseStage (P : SineParams) (k : Nat) : ℚ :=
  let v := P.sinf (P.twoPiFreqPerRate * (k : ℚ))
  if k ≤ P.riseSamples then v * ((k : ℚ) / (P.riseSamples : ℚ)) else v

/-- The sample written for a frame k frames after the phase reference
when no fall-tail is active: riseStage scaled by the output gain. -/
def toneAt (P : SineParams) (k : Nat) : ℚ :=
  riseStage P k * VOLUME_SCALE

/-- The sample written at index m of a block while a fall-tail is active:
pos and fpos are the block-start offsets from the phase reference and
from the key-up frame.  Inside the fall ramp the linear fall factor is
applied; past the ramp the sample is forced to exact zero. -/
def fallToneAt (P : SineParams) (pos fpos : Nat) (m : Nat) : ℚ :=
  if fpos + m ≤ P.riseSamples then
    riseStage P (pos + m) * (1 - ((fpos + m : Nat) : ℚ) / (P.riseSamples : ℚ)) * VOLUME_SCALE
  else 0

/-- A block buffer written pointwise from a sample function, starting at
index n, with r samples. -/
def pureBuf (f : Nat → ℚ) : Nat → Nat → List ℚ
  | _, 0 => []
  | n, r + 1 => f n :: pureBuf f (n + 1) r

/-! ## Helper lemmas -/

theorem pureBuf_getElem (f : Nat → ℚ) :
    ∀ (r n i : Nat), (pureBuf f n r)[i]? = if i < r then some (f (n + i)) else none := by
  intro r
  induction r with
  | zero => intro n i; simp [pureBuf]
  | succ r ih =>
    intro n i
    cases i with
    | zero => simp [pureBuf]
    | succ i =>
      rw [pureBuf, List.getElem?_cons_succ, ih (n + 1) i]
      by_cases hc : i < r
      · rw [if_pos hc, if_pos (by omega : i + 1 < r + 1),
          (by omega : n + 1 + i = n + (i + 1))]
      · rw [if_neg hc, if_neg (by omega : ¬i + 1 < r + 1)]

theorem pureBuf_zero (f : Nat → ℚ) :
    ∀ (r n : Nat), (∀ m, n ≤ m → f m = 0) → pureBuf f n r = List.replicate r 0 := by
  intro r
  induction r with
  | zero => intro n _; simp [pureBuf]
  | succ r ih =>
    intro n h
    simp [pureBuf, h n le_rfl, ih (n + 1) (fun m hm => h m (by omega)),
      List.replicate_succ]

theorem writeSineGo_finished (P : SineParams) (pos fpos : Nat) :
    ∀ (r n field : Nat),
      writeSineGo P pos fpos r n true field = (List.replicate r 0, field) := by
  intro r
  induction r with
  | zero => intro n field; simp [writeSineGo]
  | succ r ih => intro n field; simp [writeSineGo, ih, List.replicate_succ]

theorem writeSineGo_inactive (P : SineParams) (pos fpos : Nat) :
    ∀ (r n : Nat), writeSineGo P pos fpos r n false 0 =
      (pureBuf (fun m => toneAt P (pos + m)) n r, 0) := by
  intro r
  induction r with
  | zero => intro n; simp [writeSineGo, pureBuf]
  | succ r ih =>
    intro n
    simp [writeSineGo, ih, pureBuf, toneAt, riseStage]

theorem writeSineGo_active (P : SineParams) (pos fpos field : Nat) (hf : 0 < field) :
    ∀ (r n : Nat), writeSineGo P pos fpos r n false field =
      (pureBuf (fun m => fallToneAt P pos fpos m) n r,
       if ∃ i, i < r ∧ P.riseSamples < fpos + (n + i) then 0 else field) := by
  intro r
  induction r with
  | zero => intro n; simp [writeSineGo, pureBuf]
  | succ r ih =>
    intro n
    by_cases h : fpos + n ≤ P.riseSamples
    · have hiff : (∃ i, i < r + 1 ∧ P.riseSamples < fpos + (n + i)) ↔
          (∃ i, i < r ∧ P.riseSamples < fpos + (n + 1 + i)) := by
        constructor
        · rintro ⟨i, hi, hR⟩
          match i with
          | 0 => omega
          | j + 1 => exact ⟨j, by omega, by omega⟩
        · rintro ⟨j, hj, hR⟩
          exact ⟨j + 1, by omega, by omega⟩
      simp [writeSineGo, hf, h, ih, pureBuf, fallToneAt, riseStage, hiff]
    · have hx : ∃ i, i < r + 1 ∧ P.riseSamples < fpos + (n + i) :=
        ⟨0, by omega, by omega⟩
      have hz : pureBuf (fun m => fallToneAt P pos fpos m) (n + 1) r =
          List.replicate r 0 := by
        refine pureBuf_zero _ r (n + 1) fun m hm => ?_
        simp [fallToneAt]
        omega
      have hhead : fallToneAt P pos fpos n = 0 := by
        unfold fallToneAt
        rw [if_neg h]
      simp [writeSineGo, hf, h, writeSineGo_finished, pureBuf, hz, hx, hhead]

theorem fallToneAt_eq_zero (P : SineParams) (pos fpos m : Nat)
    (hR : 0 < P.riseSamples) (h : P.riseSamples ≤ fpos + m) :
    fallToneAt P pos fpos m = 0 := by
  unfold fallToneAt
  by_cases hle : fpos + m ≤ P.riseSamples
  · have heq : fpos + m = P.riseSamples := le_antisymm hle h
    rw [if_pos hle, heq]
    have hcast : ((P.riseSamples : Nat) : ℚ) / ((P.riseSamples : Nat) : ℚ) = 1 :=
      div_self (by exact_mod_cast hR.ne')
    rw [hcast]
    ring
  · rw [if_neg hle]

theorem write_sine_inactive (P : SineParams) (lk : Bool) (t0 bt N : Nat) :
    write_sine P ⟨lk, t0, 0⟩ bt N =
      (pureBuf (fun m => toneAt P (bt - t0 + m)) 0 N, ⟨lk, t0, 0⟩) := by
  simp [write_sine, writeSineGo_inactive]

theorem write_sine_active (P : SineParams) (lk : Bool) (t0 t1 bt N : Nat) (h : 0 < t1) :
    write_sine P ⟨lk, t0, t1⟩ bt N =
      (pureBuf (fun m => fallToneAt P (bt - t0) (bt - t1) m) 0 N,
       ⟨lk, t0, if ∃ i, i < N ∧ P.riseSamples < bt - t1 + i then 0 else t1⟩) := by
  simp [write_sine, writeSineGo_active P (bt - t0) (bt - t1) t1 h]

/-! ## Claim theorems -/

/-- Claim C1: for every one of the 256 possible single received bytes,
Client::on_receive fires exactly one of the three decode branches, with
no overlap: the device-status branch exactly when the top two bits are 11
(b / 64 = 3), the speed-pot branch exactly when they are 10 (b / 64 = 2),
and the echoed-character branch otherwise; in the speed-pot branch the
reported WPM is (b & 0x7F) + 13, so byte 0x85 reports 18 WPM. -/
theorem c1_status_byte_partition (b : Nat) (hb : b < 256) :
    ((isStatusBranch (decodeByte b)).toNat + (isSpeedPotBranch (decodeByte b)).toNat +
      (isEchoBranch (decodeByte b)).toNat = 1) ∧
    (isStatusBranch (decodeByte b) = true ↔ b / 64 = 3) ∧
    (isSpeedPotBranch (decodeByte b) = true ↔ b / 64 = 2) ∧
    (b / 64 = 2 → decodeByte b = Decoded.speedPot (b % 128 + 13)) ∧
    decodeByte 0x85 = Decoded.speedPot 18 := by
  revert b
  set_option maxRecDepth 4096 in decide

/-- Claim C1 witness: byte 0x85 is in range and decodes to 18 WPM. -/
theorem c1_status_byte_partition_witness :
    (0x85 : Nat) < 256 ∧ decodeByte 0x85 = Decoded.speedPot 18 :=
  ⟨by decide, (c1_status_byte_partition 0x85 (by decide)).2.2.2.2⟩

/-- Claim C5 counterexample: byte 0xC8 matches the WK2 status pattern but
its low (key-line) bit is 0, so the decode stores the key-line flag as
false, not true as the claim states. -/
theorem c5_wk2_status_counterexample :
    decodeByte 0xc8 = Decoded.statusKey false ∧
    decodeByte 0xc8 ≠ Decoded.statusKey true := by
  decide

/-- Claim C5 amended: when the received byte matches the WK2 status
pattern 0xC8, it is treated as a status update and the shared key-down
flag is stored from the real-time key-line bit (bit 0) of the byte; for
byte 0xC8 itself that bit is clear, so false is stored, while byte 0xC9
stores true. -/
theorem c5_wk2_status_amended (b : Nat) (hb : b < 256)
    (h : b &&& STATUS_WK2_BYTE = STATUS_WK2_BYTE) :
    decodeByte b = Decoded.statusKey (decide (0 < b &&& TX_KEY_MASK)) ∧
    decodeByte 0xc8 = Decoded.statusKey false ∧
    decodeByte 0xc9 = Decoded.statusKey true := by
  revert b
  set_option maxRecDepth 4096 in decide

/-- Claim C5 amended witness: byte 0xC9 matches the WK2 pattern and
stores a set key-line flag. -/
theorem c5_wk2_status_amended_witness :
    (0xc9 : Nat) < 256 ∧ (0xc9 : Nat) &&& STATUS_WK2_BYTE = STATUS_WK2_BYTE ∧
    decodeByte 0xc9 = Decoded.statusKey (decide (0 < (0xc9 : Nat) &&& TX_KEY_MASK)) :=
  ⟨by decide, by decide, (c5_wk2_status_amended 0xc9 (by decide) (by decide)).1⟩

/-- Claim C6 (code bug evaluation): a successful read returning the two
bytes [0x85, 0x86] has only its first byte passed through the status
decode; the spec-side decode of the same chunk handles both bytes, and
the decode of 0x86 (19 WPM) never occurs in what on_receive does. -/
theorem c6_only_first_byte_decoded :
    onReceive [0x85, 0x86] = some (Decoded.speedPot 18) ∧
    specChunkDecodes [0x85, 0x86] = [Decoded.speedPot 18, Decoded.speedPot 19] ∧
    Decoded.speedPot 19 ∉ (onReceive [0x85, 0x86]).toList := by
  decide

/-- Claim C7: the handshake sends set-protocol-mode then host-open, reads
one version byte; on the supported revision it sends switch-to-high-baud
and then exactly the configuration commands in order (operating-mode
flags 0x44, default speed 30, speed-pot bounds 13/32/0); on any other
version byte it fails with the unsupported-version error, sends no
high-speed configuration, and never sends the switch-to-high-baud
command. -/
theorem c7_handshake_commands (v : Nat) (hv : v ≠ WINKEY_23) :
    clientNew WINKEY_23 =
      ([[0, 11], [0, 2], [0, 17]], [[0xe, 0x44], [0x2, 30], [5, 13, 32, 0]], none) ∧
    clientNew v = ([[0, 11], [0, 2]], [], some (ClientError.unsupportedDeviceVersion v)) ∧
    ADMIN_SET_HIGH_BAUD ∉ (clientNew v).1 := by
  have hbad : clientNew v =
      ([[0, 11], [0, 2]], [], some (ClientError.unsupportedDeviceVersion v)) := by
    simp [clientNew, slow_init, hv, commandSend, ADMIN_SET_WK2_MODE, ADMIN_HOST_OPEN]
  refine ⟨by decide, hbad, ?_⟩
  rw [hbad]
  show ADMIN_SET_HIGH_BAUD ∉ [[0, 11], [0, 2]]
  decide

/-- Claim C7 witness: version byte 0 is rejected with the
unsupported-version error and no configuration commands. -/
theorem c7_handshake_commands_witness :
    (0 : Nat) ≠ WINKEY_23 ∧
    clientNew 0 = ([[0, 11], [0, 2]], [], some (ClientError.unsupportedDeviceVersion 0)) :=
  ⟨by decide, (c7_handshake_commands 0 (by decide)).2.1⟩

/-- Claim C8: in the drain loop a would-block condition is not an error:
it ends the loop with Ok after every previously read chunk has been
handed to on_receive; any other read error e makes Client::read return
Err carrying e; and every successful read continues the loop. -/
theorem c8_drain_loop_error_handling :
    (∀ chunks : List (List Nat), (∀ c ∈ chunks, c ≠ []) →
       clientReadT (chunks.map ReadEvent.ok ++ [ReadEvent.wouldBlock]) =
         some (chunks.filterMap onReceive, none)) ∧
    (∀ (chunks : List (List Nat)) (e : Nat) (evs : List ReadEvent),
       (∀ c ∈ chunks, c ≠ []) →
       clientReadT (chunks.map ReadEvent.ok ++ ReadEvent.err e :: evs) =
         some (chunks.filterMap onReceive, some e)) ∧
    (∀ (b : Nat) (c : List Nat) (evs : List ReadEvent),
       clientReadT (ReadEvent.ok (b :: c) :: evs) =
         (clientReadT evs).map (fun p => (decodeByte b :: p.1, p.2))) := by
  refine ⟨?_, ?_, ?_⟩
  · intro chunks
    induction chunks with
    | nil => intro _; simp [clientReadT]
    | cons c cs ih =>
      intro h
      match c, h c (by simp) with
      | b :: t, _ =>
        simp [clientReadT, onReceive, ih (fun x hx => h x (by simp [hx])),
          List.filterMap_cons]
  · intro chunks e evs
    induction chunks with
    | nil => intro _; simp [clientReadT]
    | cons c cs ih =>
      intro h
      match c, h c (by simp) with
      | b :: t, _ =>
        simp [clientReadT, onReceive, ih (fun x hx => h x (by simp [hx])),
          List.filterMap_cons]
  · intro b c evs
    simp [clientReadT, onReceive]

/-- Claim C8 witness: one successful one-byte read followed by
would-block yields Ok with the byte decoded. -/
theorem c8_drain_loop_error_handling_witness :
    clientReadT [ReadEvent.ok [0xc8], ReadEvent.wouldBlock] =
      some ([Decoded.statusKey false], none) :=
  (c8_drain_loop_error_handling.1 [[0xc8]] (by decide)).trans (by decide)

/-- Claim C9: on_receive accesses byte 0 of the chunk unconditionally, so
its embedding succeeds exactly when the chunk has at least one byte; the
whole drain loop avoids the out-of-range access exactly when every
successful read it consumes returned at least one byte. -/
theorem c9_nonempty_read_precondition :
    (∀ chunk : List Nat, (onReceive chunk).isSome = true ↔ 1 ≤ chunk.length) ∧
    (∀ evs : List ReadEvent, (clientReadT evs).isSome = true ↔
       ∀ c ∈ consumedOk evs, 1 ≤ c.length) := by
  constructor
  · intro chunk
    cases chunk <;> simp [onReceive]
  · intro evs
    induction evs with
    | nil => simp [clientReadT, consumedOk]
    | cons ev evs ih =>
      cases ev with
      | ok c =>
        cases c with
        | nil => simp [clientReadT, onReceive, consumedOk]
        | cons b t => simp [clientReadT, onReceive, consumedOk, ih]
      | wouldBlock => simp [clientReadT, consumedOk]
      | err e => simp [clientReadT, consumedOk]

/-- Claim C9 witness: a one-byte chunk is decoded successfully. -/
theorem c9_nonempty_read_precondition_witness :
    (onReceive [0x41]).isSome = true :=
  (c9_nonempty_read_precondition.1 [0x41]).mpr (by decide)

/-- Claim C2: during a sustained key-down whose transition was recorded
at frame t0, the sample written for absolute frame bt + i is
toneAt P (bt + i - t0): the sine routine applied to
twoPiFreqPerRate * (f - t0), scaled by the rise envelope and the fixed
output gain, so the phase position is f - t0 and the phase argument is 0
at the key-down edge.  The engine state is unchanged by the block, so
every block of a sustained key-down samples the same function of the
absolute frame: one continuous sine across block boundaries.  The last
two conjuncts cover the edge block itself: the phase reference is set to
the block start and the samples start at phase position 0. -/
theorem c2_phase_continuity (P : SineParams) (t0 bt N : Nat) (h : t0 ≤ bt) :
    (process P true bt N ⟨true, t0, 0⟩).2 = ⟨true, t0, 0⟩ ∧
    (∀ i, i < N →
      ((process P true bt N ⟨true, t0, 0⟩).1)[i]? = some (toneAt P (bt + i - t0))) ∧
    (process P true bt N ⟨false, 0, 0⟩).2 = ⟨true, bt, 0⟩ ∧
    (∀ i, i < N →
      ((process P true bt N ⟨false, 0, 0⟩).1)[i]? = some (toneAt P i)) := by
  have h1 : process P true bt N ⟨true, t0, 0⟩ =
      (pureBuf (fun m => toneAt P (bt - t0 + m)) 0 N, ⟨true, t0, 0⟩) := by
    simp [process, write_sine_inactive]
  have h2 : process P true bt N ⟨false, 0, 0⟩ =
      (pureBuf (fun m => toneAt P m) 0 N, ⟨true, bt, 0⟩) := by
    simp [process, write_sine_inactive]
  refine ⟨by rw [h1], fun i hi => ?_, by rw [h2], fun i hi => ?_⟩
  · rw [h1]
    simp only [pureBuf_getElem, if_pos hi, Nat.zero_add]
    rw [(by omega : bt - t0 + i = bt + i - t0)]
  · rw [h2]
    simp [pureBuf_getElem, hi]

/-- Claim C2 witness: a concrete sustained key-down block. -/
theorem c2_phase_continuity_witness :
    (3 : Nat) ≤ 5 ∧
    ((process ⟨1, fun x => x, 4⟩ true 5 2 ⟨true, 3, 0⟩).1)[1]? =
      some (toneAt ⟨1, fun x => x, 4⟩ (5 + 1 - 3)) :=
  ⟨by decide, (c2_phase_continuity ⟨1, fun x => x, 4⟩ 3 5 2 (by decide)).2.1 1 (by decide)⟩

/-- Claim C3: with a fall-tail recorded at frame t1 and the key still up,
every sample of the block at a frame at least riseSamples frames past t1
is exactly zero; the fall-tail state is cleared as soon as the block
produces a sample strictly past the ramp; and after the tail is cleared,
every later key-up block writes an all-zero buffer and keeps the engine
silent until the next key-down. -/
theorem c3_silence_after_fall (P : SineParams) (t0 t1 bt N : Nat)
    (hR : 0 < P.riseSamples) (h1 : 0 < t1) (hb : t1 ≤ bt) :
    (∀ i, i < N → P.riseSamples ≤ bt - t1 + i →
       ((process P false bt N ⟨false, t0, t1⟩).1)[i]? = some 0) ∧
    ((∃ i, i < N ∧ P.riseSamples < bt - t1 + i) →
       ((process P false bt N ⟨false, t0, t1⟩).2).startFinishingFrameTime = 0) ∧
    (∀ bt2 N2 t02, process P false bt2 N2 ⟨false, t02, 0⟩ =
       (List.replicate N2 0, ⟨false, 0, 0⟩)) := by
  have hp : process P false bt N ⟨false, t0, t1⟩ =
      (pureBuf (fun m => fallToneAt P (bt - t0) (bt - t1) m) 0 N,
       ⟨false, t0, if ∃ i, i < N ∧ P.riseSamples < bt - t1 + i then 0 else t1⟩) := by
    simp [process, h1, write_sine_active]
  refine ⟨fun i hi hz => ?_, fun hex => ?_, fun bt2 N2 t02 => ?_⟩
  · rw [hp]
    simp only [pureBuf_getElem, if_pos hi, Nat.zero_add]
    rw [fallToneAt_eq_zero P (bt - t0) (bt - t1) i hR hz]
  · rw [hp]
    simp [hex]
  · simp [process]

/-- Claim C3 witness: a concrete fall block whose first sample sits
exactly at the end of the ramp. -/
theorem c3_silence_after_fall_witness :
    ((process ⟨1, fun x => x, 2⟩ false 6 3 ⟨false, 3, 4⟩).1)[0]? = some 0 :=
  (c3_silence_after_fall ⟨1, fun x => x, 2⟩ 3 4 6 3 (by decide) (by decide)
    (by decide)).1 0 (by decide) (by decide)

/-- Claim C4 counterexample: key-down at frame 10 (rise length 4, sine
routine frozen at 1, gain 3/5), key-up at frame 18, re-key at frame 21
while the fall-tail is active.  The last fall sample is 3/10 (half
amplitude); the first sample after the re-key is the full 3/5, not the
toneAt value of a freshly started rise (which would be 0), and the jump
3/5 - 3/10 exceeds the largest step a linear rise of length 4 can
produce, so no new linear rise is begun and the amplitude is
discontinuous.  The fall-tail state itself is cancelled. -/
theorem c4_retrigger_counterexample :
    ((process ⟨1, fun _ => 1, 4⟩ false 18 3 ⟨true, 10, 0⟩).1)[2]? = some (3 / 10) ∧
    (process ⟨1, fun _ => 1, 4⟩ false 18 3 ⟨true, 10, 0⟩).2 = ⟨false, 10, 18⟩ ∧
    ((process ⟨1, fun _ => 1, 4⟩ true 21 4 ⟨false, 10, 18⟩).1)[0]? = some (3 / 5) ∧
    ((process ⟨1, fun _ => 1, 4⟩ true 21 4 ⟨false, 10, 18⟩).1)[0]? ≠
      some (toneAt ⟨1, fun _ => 1, 4⟩ 0) ∧
    (process ⟨1, fun _ => 1, 4⟩ true 21 4 ⟨false, 10, 18⟩).2 = ⟨true, 10, 0⟩ ∧
    ¬((3 : ℚ) / 5 - 3 / 10 ≤ 3 / 5 * (1 / 4)) := by
  have hws := write_sine_active ⟨1, fun _ => 1, 4⟩ false 10 18 18 3 (by norm_num)
  have hex : ¬∃ i, i < 3 ∧ (4 : Nat) < 18 - 18 + i := by decide
  rw [if_neg hex] at hws
  have hA : process ⟨1, fun _ => 1, 4⟩ false 18 3 ⟨true, 10, 0⟩ =
      (pureBuf (fun m => fallToneAt ⟨1, fun _ => 1, 4⟩ (18 - 10) (18 - 18) m) 0 3,
       ⟨false, 10, 18⟩) := by
    simp [process, hws]
  have hB : process ⟨1, fun _ => 1, 4⟩ true 21 4 ⟨false, 10, 18⟩ =
      (pureBuf (fun m => toneAt ⟨1, fun _ => 1, 4⟩ (21 - 10 + m)) 0 4,
       ⟨true, 10, 0⟩) := by
    simp [process, write_sine_inactive]
  refine ⟨?_, by rw [hA], ?_, ?_, by rw [hB], by norm_num⟩
  · rw [hA]
    simp only [pureBuf_getElem, if_pos (by norm_num : (2 : Nat) < 3), Nat.zero_add]
    simp only [fallToneAt, riseStage]
    norm_num [VOLUME_SCALE]
  · rw [hB]
    simp only [pureBuf_getElem, if_pos (by norm_num : (0 : Nat) < 4), Nat.zero_add]
    simp only [toneAt, riseStage]
    norm_num [VOLUME_SCALE]
  · rw [hB]
    simp only [pureBuf_getElem, if_pos (by norm_num : (0 : Nat) < 4), Nat.zero_add]
    simp only [toneAt, riseStage]
    norm_num [VOLUME_SCALE]

/-- Claim C4 amended: if a new key-down edge is observed while a
fall-tail is still active, the fall-tail is cancelled with no leftover
tail state, and the tone resumes immediately under the original phase
reference and its original envelope position; no new rise ramp is begun
from zero, so the amplitude may jump from the partial fall value back to
the full keyed value. -/
theorem c4_retrigger_amended (P : SineParams) (t0 t1 bt N : Nat)
    (h1 : 0 < t1) (hb : t0 ≤ bt) :
    (process P true bt N ⟨false, t0, t1⟩).2 = ⟨true, t0, 0⟩ ∧
    ∀ i, i < N →
      ((process P true bt N ⟨false, t0, t1⟩).1)[i]? = some (toneAt P (bt + i - t0)) := by
  have hp : process P true bt N ⟨false, t0, t1⟩ =
      (pureBuf (fun m => toneAt P (bt - t0 + m)) 0 N, ⟨true, t0, 0⟩) := by
    simp [process, h1, write_sine_inactive]
  refine ⟨by rw [hp], fun i hi => ?_⟩
  rw [hp]
  simp only [pureBuf_getElem, if_pos hi, Nat.zero_add]
  rw [(by omega : bt - t0 + i = bt + i - t0)]

/-- Claim C4 amended witness: a concrete re-key during an active tail. -/
theorem c4_retrigger_amended_witness :
    (0 : Nat) < 9 ∧ (2 : Nat) ≤ 12 ∧
    (process ⟨1, fun x => x, 4⟩ true 12 2 ⟨false, 2, 9⟩).2 = ⟨true, 2, 0⟩ :=
  ⟨by decide, by decide,
    (c4_retrigger_amended ⟨1, fun x => x, 4⟩ 2 9 12 2 (by decide) (by decide)).1⟩

/-- Claim C10: the engine uses the value 0 of its two frame counters as
the inactive sentinel.  Consequently a key-up edge in a block whose
start frame counter is exactly 0 records start_finishing_frame_time = 0,
which reads as no fall-tail: the block is cut to silence abruptly and
the phase reference is reset.  And a key-down edge arriving while the
phase reference is still armed (start_frame_time > 0) does not reset the
phase reference, whether or not a fall-tail is active. -/
theorem c10_sentinel_frame_counters (P : SineParams) (t0 bt N : Nat)
    (s : EngineState) (h1 : s.lastTxKeyLine = false) (h2 : 0 < s.startFrameTime) :
    process P false 0 N ⟨true, t0, 0⟩ = (List.replicate N 0, ⟨false, 0, 0⟩) ∧
    ((process P true bt N s).2).startFrameTime = s.startFrameTime := by
  constructor
  · simp [process]
  · obtain ⟨lk, st, fin⟩ := s
    simp only [EngineState.lastTxKeyLine] at h1
    subst h1
    by_cases hf : 0 < fin
    · simp [process, hf, write_sine]
    · have hf0 : fin = 0 := by omega
      subst hf0
      have hst : ¬st = 0 := by
        simp only [EngineState.startFrameTime] at h2
        omega
      simp [process, hst, write_sine]

/-- Claim C10 witness: a key-down edge with the phase reference armed at
frame 7 and an active fall-tail leaves the phase reference at 7. -/
theorem c10_sentinel_frame_counters_witness :
    (⟨false, 7, 5⟩ : EngineState).lastTxKeyLine = false ∧
    0 < (⟨false, 7, 5⟩ : EngineState).startFrameTime ∧
    ((process ⟨1, fun x => x, 4⟩ true 9 2 ⟨false, 7, 5⟩).2).startFrameTime = 7 :=
  ⟨rfl, by decide,
    (c10_sentinel_frame_counters ⟨1, fun x => x, 4⟩ 0 9 2 ⟨false, 7, 5⟩ rfl
      (by decide)).2⟩

end Keyjack
